import Mathlib

/-!
Shallow embedding of the vinculum crate (src/lib.rs): conversion between
unsigned 64-bit integers and Roman numerals in vinculum notation.

Modelling conventions:
* Rust strings are modelled as `List Char` (a Rust `String`/`&str` is a
  sequence of unicode scalar values; grapheme segmentation is made explicit
  below).  Error payloads (Rust `String`) are likewise `List Char`.
* `u64` arithmetic is `Nat` with an explicit `% 2 ^ 64` wherever the Rust
  operation can wrap (the release-build wrapping semantics of `u64::pow`
  and `Iterator::sum`); operations that cannot overflow are plain `Nat`
  operations.
* A Rust panic (an `unwrap` that could fail) is modelled by `Option`:
  `none` means the code would panic, `some` is normal completion.
* `Result<T, String>` is `Except (List Char) T`.
-/

/-- Modulus of Rust u64 arithmetic, 2 ^ 64. -/
def u64Size : Nat := 18446744073709551616

/-- Embedding of the static phf map CHARACTER_TUPLES (src/lib.rs lines 3-25):
for a power-of-ten tier, the (one, five, ten) glyph triple. `Map.get` is the
function itself, returning `none` for absent keys. -/
def CHARACTER_TUPLES (n : Nat) : Option (List Char × List Char × List Char) :=
  match n with
  | 0 => some (['I'], ['V'], ['X'])
  | 1 => some (['X'], ['L'], ['C'])
  | 2 => some (['C'], ['D'], ['I', '̅'])
  | 3 => some (['I', '̅'], ['V', '̅'], ['X', '̅'])
  | 4 => some (['X', '̅'], ['L', '̅'], ['C', '̅'])
  | 5 => some (['C', '̅'], ['D', '̅'], ['M', '̅'])
  | 6 => some (['M', '̅'], ['V', '̿'], ['X', '̿'])
  | 7 => some (['X', '̿'], ['L', '̿'], ['C', '̿'])
  | 8 => some (['C', '̿'], ['D', '̿'], ['M', '̿'])
  | 9 => some (['I', '̲', '̿'], ['V', '̲', '̿'], ['X', '̲', '̿'])
  | 10 => some (['X', '̲', '̿'], ['L', '̲', '̿'], ['C', '̲', '̿'])
  | 11 => some (['C', '̲', '̿'], ['D', '̲', '̿'], ['M', '̲', '̿'])
  | 12 => some (['I', '̳', '̿'], ['V', '̳', '̿'], ['X', '̳', '̿'])
  | 13 => some (['X', '̳', '̿'], ['L', '̳', '̿'], ['C', '̳', '̿'])
  | 14 => some (['C', '̳', '̿'], ['D', '̳', '̿'], ['M', '̳', '̿'])
  | 15 => some (['I', '⃒', '̳', '̿'], ['V', '⃒', '̳', '̿'], ['X', '⃒', '̳', '̿'])
  | 16 => some (['X', '⃒', '̳', '̿'], ['L', '⃒', '̳', '̿'], ['C', '⃒', '̳', '̿'])
  | 17 => some (['C', '⃒', '̳', '̿'], ['D', '⃒', '̳', '̿'], ['M', '⃒', '̳', '̿'])
  | 18 => some (['I', '⃦', '̳', '̿'], ['V', '⃦', '̳', '̿'], ['X', '⃦', '̳', '̿'])
  | 19 => some (['X', '⃦', '̳', '̿'], ['L', '⃦', '̳', '̿'], ['C', '⃦', '̳', '̿'])
  | 20 => some (['C', '⃦', '̳', '̿'], ['D', '⃦', '̳', '̿'], ['M', '⃦', '̳', '̿'])
  | _ => none

/-- Embedding of the static phf map GRAPHEME_VALUES (src/lib.rs lines 28-72)
as its entry list: decorated grapheme to (base multiplier, tier). -/
def GRAPHEME_VALUES : List (List Char × Nat × Nat) := [
  (['I'], 1, 0),
  (['V'], 5, 0),
  (['X'], 1, 1),
  (['L'], 5, 1),
  (['C'], 1, 2),
  (['D'], 5, 2),
  (['I', '̅'], 1, 3),
  (['V', '̅'], 5, 3),
  (['X', '̅'], 1, 4),
  (['L', '̅'], 5, 4),
  (['C', '̅'], 1, 5),
  (['D', '̅'], 5, 5),
  (['M', '̅'], 1, 6),
  (['V', '̿'], 5, 6),
  (['X', '̿'], 1, 7),
  (['L', '̿'], 5, 7),
  (['C', '̿'], 1, 8),
  (['D', '̿'], 5, 8),
  (['I', '̲', '̿'], 1, 9),
  (['V', '̲', '̿'], 5, 9),
  (['X', '̲', '̿'], 1, 10),
  (['L', '̲', '̿'], 5, 10),
  (['C', '̲', '̿'], 1, 11),
  (['D', '̲', '̿'], 5, 11),
  (['I', '̳', '̿'], 1, 12),
  (['V', '̳', '̿'], 5, 12),
  (['X', '̳', '̿'], 1, 13),
  (['L', '̳', '̿'], 5, 13),
  (['C', '̳', '̿'], 1, 14),
  (['D', '̳', '̿'], 5, 14),
  (['I', '⃒', '̳', '̿'], 1, 15),
  (['V', '⃒', '̳', '̿'], 5, 15),
  (['X', '⃒', '̳', '̿'], 1, 16),
  (['L', '⃒', '̳', '̿'], 5, 16),
  (['C', '⃒', '̳', '̿'], 1, 17),
  (['D', '⃒', '̳', '̿'], 5, 17),
  (['I', '⃦', '̳', '̿'], 1, 18),
  (['V', '⃦', '̳', '̿'], 5, 18),
  (['X', '⃦', '̳', '̿'], 1, 19),
  (['L', '⃦', '̳', '̿'], 5, 19),
  (['C', '⃦', '̳', '̿'], 1, 20),
  (['D', '⃦', '̳', '̿'], 5, 20)]

/-- `GRAPHEME_VALUES.get(grapheme)`: first-match lookup in the map. -/
def lookupGrapheme (g : List Char) : Option (Nat × Nat) :=
  (GRAPHEME_VALUES.find? (fun e => e.1 == g)).map (fun e => e.2)

/-- Embedding of fn value (src/lib.rs lines 137-143).
`powers.0 as u64 * 10_u64.pow(powers.1)` wraps at tier 20 in u64,
hence the `% u64Size`. -/
def value (g : List Char) : Except (List Char) Nat :=
  match lookupGrapheme g with
  | some p => .ok (p.1 * 10 ^ p.2 % u64Size)
  | none => .error (("Unknown grapheme ").data ++ g)

/-- `collect::<Result<Vec<_>, _>>()`: map `value` over the graphemes,
stopping at the first error. -/
def valueList : List (List Char) → Except (List Char) (List Nat)
  | [] => .ok []
  | g :: gs =>
    match value g with
    | .error e => .error e
    | .ok v =>
      match valueList gs with
      | .error e => .error e
      | .ok vs => .ok (v :: vs)

/-- Rust `u64::checked_sub`. -/
def checkedSub (a b : Nat) : Option Nat :=
  if b ≤ a then some (a - b) else none

/-- Embedding of the `scan` + `sum` pipeline of vinculum2arabic
(src/lib.rs lines 126-134).  The scan state is the previously seen value
(`none` before the first element); `state.replace(next).unwrap_or(next)`
makes `prev` the previous element, or `next` itself at the first step.
When `prev < next` the emitted item is
`next.checked_sub(prev)?.checked_sub(prev)`; the `?` makes the closure
return `none`, which TERMINATES the scan iterator, so `sum` returns the
accumulator built so far.  `sum` on u64 wraps (release semantics), hence
`% u64Size` on each addition. -/
def scanSum : Option Nat → Nat → List Nat → Nat
  | _, acc, [] => acc
  | state, acc, next :: rest =>
    let prev := (state.getD next)
    if prev < next then
      match (checkedSub next prev).bind (fun d => checkedSub d prev) with
      | none => acc
      | some term => scanSum (some next) ((acc + term) % u64Size) rest
    else
      scanSum (some next) ((acc + next) % u64Size) rest

/-- The combining marks used by the glyph tables.  All six have the
unicode Extend grapheme-break property, so an extended grapheme cluster of
the notation is a base letter followed by its run of marks.  (This models
the Extend class restricted to the marks the notation uses; every other
character is treated as starting its own cluster.) -/
def isExtend (c : Char) : Bool :=
  c == '̅' || c == '̿' || c == '̲' ||
  c == '̳' || c == '⃒' || c == '⃦'

/-- Embedding of `graphemes(true)` from unicode-segmentation: split into
extended grapheme clusters.  For this character repertoire a cluster
boundary falls exactly before every character that is not Extend (and at
the start of text), so a character `c` is merged into the following
cluster exactly when the next character is an Extend mark.
glueGrapheme performs one step: prepend character c to the clusters r of
the remainder cs. -/
def glueGrapheme (c : Char) (cs : List Char) (r : List (List Char)) : List (List Char) :=
  match cs, r with
  | d :: _, g :: gs => if isExtend d then (c :: g) :: gs else [c] :: g :: gs
  | _, _ => [[c]]

def graphemes : List Char → List (List Char)
  | [] => []
  | c :: cs => glueGrapheme c cs (graphemes cs)

/-- Embedding of pub fn vinculum2arabic (src/lib.rs lines 122-135). -/
def vinculum2arabic (s : List Char) : Except (List Char) Nat :=
  match valueList (graphemes s) with
  | .error e => .error e
  | .ok vals => .ok (scanSum none 0 vals)

/-- Embedding of fn make_vinculum (src/lib.rs lines 149-168): render a
digit 1-9 from the (one, five, ten) triple. -/
def make_vinculum (times : Nat) (chars : List Char × List Char × List Char) :
    Except (List Char) (List Char) :=
  match times with
  | 1 => .ok chars.1
  | 2 => .ok (chars.1 ++ chars.1)
  | 3 => .ok (chars.1 ++ chars.1 ++ chars.1)
  | 4 => .ok (chars.1 ++ chars.2.1)
  | 5 => .ok chars.2.1
  | 6 => .ok (chars.2.1 ++ chars.1)
  | 7 => .ok (chars.2.1 ++ chars.1 ++ chars.1)
  | 8 => .ok (chars.2.1 ++ chars.1 ++ chars.1 ++ chars.1)
  | 9 => .ok (chars.1 ++ chars.2.2)
  | t => .error (("Unsupported number: ").data ++ (Nat.repr t).data)

/-- Embedding of fn make_vinculum_number (src/lib.rs lines 145-147);
the `unwrap` on the `CHARACTER_TUPLES.get` lookup is the outer `Option`
(`none` = panic on a tier outside the table). -/
def make_vinculum_number (power_ten : Nat) (times : Nat) :
    Option (Except (List Char) (List Char)) :=
  (CHARACTER_TUPLES power_ten).map (fun t => make_vinculum times t)

/-- `Result::unwrap`: panics (models as `none`) on an error value. -/
def unwrapE : Except (List Char) α → Option α
  | .ok a => some a
  | .error _ => none

/-- The tier sequence `(1..=19).rev()` is descTiers 19 = [19, 18, ..., 1]. -/
def descTiers : Nat → List Nat
  | 0 => []
  | n + 1 => (n + 1) :: descTiers n

/-- The per-tier loop of arabic2vinculum (src/lib.rs lines 94-102),
threading the output string and the remaining value; `none` = a panic of
one of the two unwraps. -/
def encodeLoop : List Nat → List Char → Nat → Option (List Char × Nat)
  | [], res, arabic => some (res, arabic)
  | n :: ns, res, arabic =>
    let divisor := 10 ^ n
    let divided := arabic / divisor
    if divided > 0 then
      match make_vinculum_number n divided with
      | none => none
      | some r =>
        match unwrapE r with
        | none => none
        | some appendix => encodeLoop ns (res ++ appendix) (arabic - divisor * divided)
    else
      encodeLoop ns res arabic

/-- Embedding of pub fn arabic2vinculum (src/lib.rs lines 85-109).
`none` = panic; otherwise the function always builds an `ok` string. -/
def arabic2vinculum (input : Nat) : Option (Except (List Char) (List Char)) :=
  if input = 0 then
    some (.ok [])
  else
    match encodeLoop (descTiers 19) [] input with
    | none => none
    | some (res, arabic) =>
      if arabic > 0 then
        match make_vinculum_number 0 arabic with
        | none => none
        | some r =>
          match unwrapE r with
          | none => none
          | some rest => some (.ok (res ++ rest))
      else
        some (.ok res)


/-! ## Specification-level encoding

The claims describe the encoder output as, for each tier from 19 down
to 0, the rendering of the decimal digit of the input at that tier via
the fixed digit pattern.  These definitions state that description at the
granularity of graphemes. -/

/-- The glyph triple of a tier (total version of the table, only tiers
0-20 are ever used). -/
def tierTriplet (t : Nat) : List Char × List Char × List Char :=
  (CHARACTER_TUPLES t).getD ([], [], [])

/-- Rendering of one decimal digit as a grapheme sequence from the
(one, five, ten) triple: 1→one, 2→one one, 3→one one one, 4→one five,
5→five, 6→five one, 7→five one one, 8→five one one one, 9→one ten;
digit 0 contributes nothing. -/
def digitGraphemes (d : Nat) (chars : List Char × List Char × List Char) :
    List (List Char) :=
  match d with
  | 1 => [chars.1]
  | 2 => [chars.1, chars.1]
  | 3 => [chars.1, chars.1, chars.1]
  | 4 => [chars.1, chars.2.1]
  | 5 => [chars.2.1]
  | 6 => [chars.2.1, chars.1]
  | 7 => [chars.2.1, chars.1, chars.1]
  | 8 => [chars.2.1, chars.1, chars.1, chars.1]
  | 9 => [chars.1, chars.2.2]
  | _ => []

/-- Grapheme sequence of the full rendering: the digits of `a` at tiers
`t` down to 0, highest tier first. -/
def vincGraphemes : Nat → Nat → List (List Char)
  | 0, a => digitGraphemes (a % 10) (tierTriplet 0)
  | t + 1, a => digitGraphemes (a / 10 ^ (t + 1) % 10) (tierTriplet (t + 1)) ++ vincGraphemes t a

/-- Grapheme sequence of tiers `t` down to 1 only (the part produced by
the encoder's main loop, before the final units step). -/
def vincAbove : Nat → Nat → List (List Char)
  | 0, _ => []
  | t + 1, a => digitGraphemes (a / 10 ^ (t + 1) % 10) (tierTriplet (t + 1)) ++ vincAbove t a

/-- The numeric values of the graphemes rendering one digit at a tier
whose one-glyph is worth `p`. -/
def digitValues (d : Nat) (p : Nat) : List Nat :=
  match d with
  | 1 => [p]
  | 2 => [p, p]
  | 3 => [p, p, p]
  | 4 => [p, 5 * p]
  | 5 => [5 * p]
  | 6 => [5 * p, p]
  | 7 => [5 * p, p, p]
  | 8 => [5 * p, p, p, p]
  | 9 => [p, 10 * p]
  | _ => []

/-- The value of the last grapheme of a nonzero digit rendering. -/
def lastValue (d : Nat) (p : Nat) : Nat :=
  match d with
  | 4 => 5 * p
  | 5 => 5 * p
  | 9 => 10 * p
  | _ => p

/-- Value sequence of the full rendering of `a` over tiers `t` down
to 0. -/
def valuesOf : Nat → Nat → List Nat
  | 0, a => digitValues (a % 10) 1
  | t + 1, a => digitValues (a / 10 ^ (t + 1) % 10) (10 ^ (t + 1)) ++ valuesOf t a

/-! ## Basic facts about the scan -/

theorem scanSum_nil (st : Option Nat) (acc : Nat) : scanSum st acc [] = acc := rfl

theorem scanSum_cons_ge (prev acc next : Nat) (rest : List Nat) (h : next ≤ prev) :
    scanSum (some prev) acc (next :: rest) =
      scanSum (some next) ((acc + next) % u64Size) rest := by
  simp [scanSum, Nat.not_lt.mpr h]

theorem scanSum_cons_lt (prev acc next : Nat) (rest : List Nat)
    (h1 : prev < next) (h2 : prev ≤ next - prev) :
    scanSum (some prev) acc (next :: rest) =
      scanSum (some next) ((acc + (next - prev - prev)) % u64Size) rest := by
  simp [scanSum, h1, checkedSub, Nat.le_of_lt h1, h2]

theorem scanSum_cons_underflow (prev acc next : Nat) (rest : List Nat)
    (h1 : prev < next) (h2 : next - prev < prev) :
    scanSum (some prev) acc (next :: rest) = acc := by
  simp [scanSum, h1, checkedSub, Nat.le_of_lt h1, Nat.not_le.mpr h2]

theorem scanSum_none_cons (acc next : Nat) (rest : List Nat) :
    scanSum none acc (next :: rest) =
      scanSum (some next) ((acc + next) % u64Size) rest := by
  simp [scanSum]

/-- The states from which the next value `b` cannot trigger the
subtractive branch: either no previous value, or a previous value at
least `b`. -/
def stateGE (st : Option Nat) (b : Nat) : Prop :=
  ∀ p, st = some p → b ≤ p

theorem stateGE_none (b : Nat) : stateGE none b := by
  intro p h
  cases h

theorem stateGE_some (p b : Nat) (h : b ≤ p) : stateGE (some p) b := by
  intro q hq
  cases hq
  exact h

theorem stateGE_mono (st : Option Nat) (b c : Nat) (h : stateGE st b) (hcb : c ≤ b) :
    stateGE st c :=
  fun p hp => Nat.le_trans hcb (h p hp)

theorem scanSum_first (st : Option Nat) (acc next : Nat) (rest : List Nat)
    (h : stateGE st next) :
    scanSum st acc (next :: rest) =
      scanSum (some next) ((acc + next) % u64Size) rest := by
  cases st with
  | none => exact scanSum_none_cons acc next rest
  | some p => exact scanSum_cons_ge p acc next rest (h p rfl)

theorem lastValue_ge (d p : Nat) (hd : 1 ≤ d) : p ≤ lastValue d p := by
  unfold lastValue
  split <;> omega

/-- Scanning the value sequence of one nonzero digit rendered at worth-`p`
tier: starting from a state at least `5 * p`, the group contributes exactly
`d * p` to the accumulator and leaves the value of its last grapheme as
state. -/
theorem scanSum_digitValues (d p : Nat) (st : Option Nat) (acc : Nat) (rest : List Nat)
    (hd1 : 1 ≤ d) (hd9 : d ≤ 9) (hp : 0 < p) (hst : stateGE st (5 * p))
    (hacc : acc + d * p < u64Size) :
    scanSum st acc (digitValues d p ++ rest) =
      scanSum (some (lastValue d p)) (acc + d * p) rest := by
  simp only [u64Size] at hacc ⊢
  interval_cases d
  · -- 1 → [p]
    simp only [digitValues, lastValue, List.cons_append, List.nil_append]
    rw [scanSum_first _ _ _ _ (stateGE_mono _ _ _ hst (by omega))]
    rw [Nat.mod_eq_of_lt (by simp only [u64Size]; omega)]
    congr 1
    omega
  · -- 2 → [p, p]
    simp only [digitValues, lastValue, List.cons_append, List.nil_append]
    rw [scanSum_first _ _ _ _ (stateGE_mono _ _ _ hst (by omega))]
    rw [Nat.mod_eq_of_lt (by simp only [u64Size]; omega)]
    rw [scanSum_cons_ge _ _ _ _ (by omega)]
    rw [Nat.mod_eq_of_lt (by simp only [u64Size]; omega)]
    congr 1
    omega
  · -- 3 → [p, p, p]
    simp only [digitValues, lastValue, List.cons_append, List.nil_append]
    rw [scanSum_first _ _ _ _ (stateGE_mono _ _ _ hst (by omega))]
    rw [Nat.mod_eq_of_lt (by simp only [u64Size]; omega)]
    rw [scanSum_cons_ge _ _ _ _ (by omega)]
    rw [Nat.mod_eq_of_lt (by simp only [u64Size]; omega)]
    rw [scanSum_cons_ge _ _ _ _ (by omega)]
    rw [Nat.mod_eq_of_lt (by simp only [u64Size]; omega)]
    congr 1
    omega
  · -- 4 → [p, 5p]
    simp only [digitValues, lastValue, List.cons_append, List.nil_append]
    rw [scanSum_first _ _ _ _ (stateGE_mono _ _ _ hst (by omega))]
    rw [Nat.mod_eq_of_lt (by simp only [u64Size]; omega)]
    rw [scanSum_cons_lt _ _ _ _ (by omega) (by omega)]
    rw [Nat.mod_eq_of_lt (by simp only [u64Size]; omega)]
    congr 1
    omega
  · -- 5 → [5p]
    simp only [digitValues, lastValue, List.cons_append, List.nil_append]
    rw [scanSum_first _ _ _ _ (stateGE_mono _ _ _ hst (by omega))]
    rw [Nat.mod_eq_of_lt (by simp only [u64Size]; omega)]
  · -- 6 → [5p, p]
    simp only [digitValues, lastValue, List.cons_append, List.nil_append]
    rw [scanSum_first _ _ _ _ (stateGE_mono _ _ _ hst (by omega))]
    rw [Nat.mod_eq_of_lt (by simp only [u64Size]; omega)]
    rw [scanSum_cons_ge _ _ _ _ (by omega)]
    rw [Nat.mod_eq_of_lt (by simp only [u64Size]; omega)]
    congr 1
    omega
  · -- 7 → [5p, p, p]
    simp only [digitValues, lastValue, List.cons_append, List.nil_append]
    rw [scanSum_first _ _ _ _ (stateGE_mono _ _ _ hst (by omega))]
    rw [Nat.mod_eq_of_lt (by simp only [u64Size]; omega)]
    rw [scanSum_cons_ge _ _ _ _ (by omega)]
    rw [Nat.mod_eq_of_lt (by simp only [u64Size]; omega)]
    rw [scanSum_cons_ge _ _ _ _ (by omega)]
    rw [Nat.mod_eq_of_lt (by simp only [u64Size]; omega)]
    congr 1
    omega
  · -- 8 → [5p, p, p, p]
    simp only [digitValues, lastValue, List.cons_append, List.nil_append]
    rw [scanSum_first _ _ _ _ (stateGE_mono _ _ _ hst (by omega))]
    rw [Nat.mod_eq_of_lt (by simp only [u64Size]; omega)]
    rw [scanSum_cons_ge _ _ _ _ (by omega)]
    rw [Nat.mod_eq_of_lt (by simp only [u64Size]; omega)]
    rw [scanSum_cons_ge _ _ _ _ (by omega)]
    rw [Nat.mod_eq_of_lt (by simp only [u64Size]; omega)]
    rw [scanSum_cons_ge _ _ _ _ (by omega)]
    rw [Nat.mod_eq_of_lt (by simp only [u64Size]; omega)]
    congr 1
    omega
  · -- 9 → [p, 10p]
    simp only [digitValues, lastValue, List.cons_append, List.nil_append]
    rw [scanSum_first _ _ _ _ (stateGE_mono _ _ _ hst (by omega))]
    rw [Nat.mod_eq_of_lt (by simp only [u64Size]; omega)]
    rw [scanSum_cons_lt _ _ _ _ (by omega) (by omega)]
    rw [Nat.mod_eq_of_lt (by simp only [u64Size]; omega)]
    congr 1
    omega

/-- Scanning the whole value sequence of tiers `t` down to 0 adds exactly
the low `t + 1` decimal digits of `a`. -/
theorem scanSum_valuesOf : ∀ (t a : Nat) (st : Option Nat) (acc : Nat),
    stateGE st (5 * 10 ^ t) → acc + a % 10 ^ (t + 1) < u64Size →
    scanSum st acc (valuesOf t a) = acc + a % 10 ^ (t + 1) := by
  intro t
  induction t with
  | zero =>
    intro a st acc hst hacc
    simp only [valuesOf, pow_one] at *
    by_cases h0 : a % 10 = 0
    · rw [h0]
      simp only [digitValues, scanSum_nil, zero_add, pow_one, h0, Nat.add_zero]
    · have h := scanSum_digitValues (a % 10) 1 st acc []
        (by omega) (by omega) (by omega)
        (by simpa using hst) (by simpa using hacc)
      rw [List.append_nil] at h
      rw [h, scanSum_nil]
      omega
  | succ t ih =>
    intro a st acc hst hacc
    have hP : (0 : Nat) < 10 ^ (t + 1) := pow_pos (by norm_num) _
    have hsplit : a % 10 ^ (t + 1 + 1) = a % 10 ^ (t + 1) + 10 ^ (t + 1) * (a / 10 ^ (t + 1) % 10) := by
      rw [pow_succ]
      exact Nat.mod_mul
    have hP10 : 10 ^ (t + 1) = 10 * 10 ^ t := by ring
    simp only [valuesOf]
    by_cases h0 : a / 10 ^ (t + 1) % 10 = 0
    · rw [h0] at hsplit
      rw [h0]
      simp only [digitGraphemes, digitValues, List.nil_append]
      rw [ih a st acc
        (stateGE_mono _ _ _ hst (by rw [hP10]; omega))
        (by omega)]
      omega
    · have hcomm : 10 ^ (t + 1) * (a / 10 ^ (t + 1) % 10) =
        (a / 10 ^ (t + 1) % 10) * 10 ^ (t + 1) := Nat.mul_comm _ _
      rw [scanSum_digitValues _ _ st acc _ (by omega) (by omega) hP hst (by omega)]
      rw [ih a (some (lastValue (a / 10 ^ (t + 1) % 10) (10 ^ (t + 1)))) _
        (stateGE_some _ _ (by
          have hlv := lastValue_ge (a / 10 ^ (t + 1) % 10) (10 ^ (t + 1)) (by omega)
          rw [hP10] at hlv ⊢
          omega))
        (by omega)]
      omega

/-! ## Facts about the two tables -/

/-- On tiers 0-20 the tuple lookup succeeds with the triple. -/
theorem charTuples_eq : ∀ t : Nat, t ≤ 20 → CHARACTER_TUPLES t = some (tierTriplet t) := by
  decide

/-- A well-formed glyph: nonempty, base character first, then only Extend
marks. -/
def validGlyph (g : List Char) : Bool :=
  match g with
  | [] => false
  | c :: cs => !isExtend c && cs.all isExtend

/-- Every glyph of the tuple table is well formed. -/
theorem tierGlyph_valid : ∀ t : Nat, t ≤ 20 →
    validGlyph (tierTriplet t).1 ∧ validGlyph (tierTriplet t).2.1 ∧
    validGlyph (tierTriplet t).2.2 := by
  decide

theorem value_of_lookup (g : List Char) (b k : Nat) (h : lookupGrapheme g = some (b, k)) :
    value g = .ok (b * 10 ^ k % u64Size) := by
  simp [value, h]

theorem pow10_lt_u64 (t : Nat) (ht : t ≤ 19) : 10 ^ t < u64Size := by
  have h := Nat.pow_le_pow_right (by norm_num : 0 < 10) ht
  simp only [u64Size]
  calc (10:Nat) ^ t ≤ 10 ^ 19 := h
    _ < 18446744073709551616 := by norm_num

/-- The tuple table and the grapheme map have drifted apart: the
ten-glyphs of tiers 8, 11, 14, 17 and 20 (the M variants) are emitted by
the encoder but absent from GRAPHEME_VALUES, so the decoder does not
recognise them. -/
theorem tierTen_glyph_missing :
    lookupGrapheme (tierTriplet 8).2.2 = none ∧
    lookupGrapheme (tierTriplet 11).2.2 = none ∧
    lookupGrapheme (tierTriplet 14).2.2 = none ∧
    lookupGrapheme (tierTriplet 17).2.2 = none ∧
    lookupGrapheme (tierTriplet 20).2.2 = none := by
  decide

/-! ## A completed valuation of the glyphs

For the injectivity of the encoder, value every glyph the tuple table can
emit, including the five M ten-glyphs missing from GRAPHEME_VALUES, at
their intended worth (the ten-glyph of tier t being worth 10 ^ (t + 1)).
This valuation is a proof device, not part of the embedded program. -/

def missingTenGlyphs : List (List Char × Nat × Nat) := [
  (['M', '\u033F'], 1, 9),
  (['M', '\u0332', '\u033F'], 1, 12),
  (['M', '\u0333', '\u033F'], 1, 15),
  (['M', '\u20D2', '\u0333', '\u033F'], 1, 18),
  (['M', '\u20E6', '\u0333', '\u033F'], 1, 21)]

def glyphWorth (g : List Char) : Nat :=
  match ((GRAPHEME_VALUES ++ missingTenGlyphs).find? (fun e => e.1 == g)).map (fun e => e.2) with
  | some p => p.1 * 10 ^ p.2
  | none => 0

theorem glyphWorth_tier : ∀ t : Nat, t ≤ 19 →
    glyphWorth (tierTriplet t).1 = 10 ^ t ∧
    glyphWorth (tierTriplet t).2.1 = 5 * 10 ^ t ∧
    glyphWorth (tierTriplet t).2.2 = 10 ^ (t + 1) := by
  decide

theorem map_glyphWorth_digit (d t : Nat) (hd : d ≤ 9) (ht : t ≤ 19) :
    (digitGraphemes d (tierTriplet t)).map glyphWorth = digitValues d (10 ^ t) := by
  obtain ⟨h1, h5, h10⟩ := glyphWorth_tier t ht
  interval_cases d <;>
    simp [digitGraphemes, digitValues, h1, h5, h10, pow_succ, Nat.mul_comm]

theorem map_glyphWorth_vinc : ∀ (t a : Nat), t ≤ 19 →
    (vincGraphemes t a).map glyphWorth = valuesOf t a := by
  intro t
  induction t with
  | zero =>
    intro a _
    simpa [vincGraphemes, valuesOf] using
      map_glyphWorth_digit (a % 10) 0 (by omega) (by omega)
  | succ t ih =>
    intro a ht
    simp only [vincGraphemes, valuesOf, List.map_append]
    rw [map_glyphWorth_digit _ _ (by omega) (by omega), ih a (by omega)]

/-! ## Segmentation of well-formed glyph sequences -/

theorem graphemes_cons (c : Char) (cs : List Char) :
    graphemes (c :: cs) = glueGrapheme c cs (graphemes cs) := rfl

theorem graphemes_cons_ne_nil (c : Char) (cs : List Char) : graphemes (c :: cs) ≠ [] := by
  rw [graphemes_cons]
  cases cs with
  | nil => simp [glueGrapheme]
  | cons d cs2 =>
    cases h : graphemes (d :: cs2) with
    | nil => simp [glueGrapheme, h]
    | cons g gs =>
      simp only [glueGrapheme]
      split <;> simp

theorem graphemes_cons_cons (c d : Char) (cs g : List Char) (gs : List (List Char))
    (h : graphemes (d :: cs) = g :: gs) :
    graphemes (c :: d :: cs) =
      if isExtend d then (c :: g) :: gs else [c] :: g :: gs := by
  rw [graphemes_cons, h]
  rfl

/-- Prepending a well-formed glyph to a string that is empty or starts
with a non-Extend character prepends one cluster. -/
theorem graphemes_glyph_append : ∀ (ds : List Char) (c : Char) (l : List Char),
    (∀ e ∈ ds, isExtend e = true) →
    (l = [] ∨ ∃ x xs, l = x :: xs ∧ isExtend x = false) →
    graphemes ((c :: ds) ++ l) = (c :: ds) :: graphemes l := by
  intro ds
  induction ds with
  | nil =>
    intro c l _ hl
    rcases hl with rfl | ⟨x, xs, rfl, hx⟩
    · simp [graphemes, glueGrapheme]
    · cases h : graphemes (x :: xs) with
      | nil => exact absurd h (graphemes_cons_ne_nil x xs)
      | cons g gs =>
        simp only [List.nil_append, List.cons_append]
        rw [graphemes_cons_cons c x xs g gs h]
        simp [hx, h]
  | cons e ds2 ih =>
    intro c l hds hl
    have he : isExtend e = true := hds e (List.mem_cons_self e ds2)
    have h2 := ih e l (fun x hx => hds x (List.mem_cons_of_mem e hx)) hl
    simp only [List.cons_append] at h2 ⊢
    rw [graphemes_cons_cons c e (ds2 ++ l) _ _ h2]
    simp [he]

theorem flatten_head_notExtend (gs : List (List Char))
    (h : ∀ g ∈ gs, validGlyph g = true) :
    gs.flatten = [] ∨ ∃ x xs, gs.flatten = x :: xs ∧ isExtend x = false := by
  cases gs with
  | nil => left; rfl
  | cons g gs2 =>
    have hg := h g (List.mem_cons_self _ _)
    cases g with
    | nil => simp [validGlyph] at hg
    | cons c cs =>
      right
      simp only [validGlyph, Bool.and_eq_true, Bool.not_eq_true'] at hg
      exact ⟨c, cs ++ gs2.flatten, by simp, hg.1⟩

/-- Splitting a concatenation of well-formed glyphs into grapheme
clusters recovers exactly the glyph sequence. -/
theorem graphemes_flatten : ∀ gs : List (List Char),
    (∀ g ∈ gs, validGlyph g = true) → graphemes gs.flatten = gs := by
  intro gs
  induction gs with
  | nil => intro _; rfl
  | cons g gs2 ih =>
    intro h
    have hg := h g (List.mem_cons_self _ _)
    cases g with
    | nil => simp [validGlyph] at hg
    | cons c cs =>
      simp only [List.flatten_cons]
      have hcs : ∀ e ∈ cs, isExtend e = true := by
        simp only [validGlyph, Bool.and_eq_true, List.all_eq_true] at hg
        exact fun e he => hg.2 e he
      rw [graphemes_glyph_append cs c gs2.flatten hcs
        (flatten_head_notExtend gs2 (fun g hgm => h g (List.mem_cons_of_mem _ hgm)))]
      rw [ih (fun g hgm => h g (List.mem_cons_of_mem _ hgm))]

/-! ## The encoder produces the digit-wise rendering -/

theorem make_vinculum_ok (d : Nat) (tri : List Char × List Char × List Char)
    (h1 : 1 ≤ d) (h9 : d ≤ 9) :
    make_vinculum d tri = .ok (digitGraphemes d tri).flatten := by
  interval_cases d <;> simp [make_vinculum, digitGraphemes]

theorem digit_mod (a j k : Nat) (h : j + 1 ≤ k) :
    a % 10 ^ k / 10 ^ j % 10 = a / 10 ^ j % 10 := by
  rw [← Nat.mod_mul_right_div_self, ← Nat.mod_mul_right_div_self, ← pow_succ,
    Nat.mod_mod_of_dvd a (pow_dvd_pow 10 h)]

theorem vincAbove_digits : ∀ (t a k : Nat), t < k →
    vincAbove t (a % 10 ^ k) = vincAbove t a := by
  intro t
  induction t with
  | zero => intro a k _; rfl
  | succ t ih =>
    intro a k h
    simp only [vincAbove]
    rw [digit_mod a (t + 1) k (by omega), ih a k (by omega)]

theorem vincGraphemes_split : ∀ (t a : Nat),
    vincGraphemes t a = vincAbove t a ++ digitGraphemes (a % 10) (tierTriplet 0) := by
  intro t
  induction t with
  | zero => intro a; simp [vincGraphemes, vincAbove]
  | succ t ih => intro a; simp [vincGraphemes, vincAbove, ih a]

/-- The loop of arabic2vinculum over tiers `t` down to 1 appends exactly
the renderings of the decimal digits of tiers `t`..1 and leaves the units
digit. -/
theorem encodeLoop_eq : ∀ (t : Nat) (res : List Char) (a : Nat), t ≤ 19 → a < 10 ^ (t + 1) →
    encodeLoop (descTiers t) res a = some (res ++ (vincAbove t a).flatten, a % 10) := by
  intro t
  induction t with
  | zero =>
    intro res a _ ha
    rw [Nat.mod_eq_of_lt (by simpa using ha)]
    simp [descTiers, encodeLoop, vincAbove]
  | succ t ih =>
    intro res a ht ha
    have hP : (0 : Nat) < 10 ^ (t + 1) := pow_pos (by norm_num) _
    have hd9 : a / 10 ^ (t + 1) ≤ 9 := by
      have h := (Nat.div_lt_iff_lt_mul hP).mpr (by
        calc a < 10 ^ (t + 1 + 1) := ha
          _ = 10 * 10 ^ (t + 1) := by ring)
      omega
    simp only [descTiers, encodeLoop]
    by_cases h0 : a / 10 ^ (t + 1) > 0
    · rw [if_pos h0]
      simp only [make_vinculum_number, charTuples_eq (t + 1) (by omega), Option.map_some']
      rw [make_vinculum_ok _ _ (by omega) hd9]
      simp only [unwrapE]
      have hsub : a - 10 ^ (t + 1) * (a / 10 ^ (t + 1)) = a % 10 ^ (t + 1) := by
        have h := Nat.div_add_mod a (10 ^ (t + 1))
        omega
      rw [hsub, ih _ (a % 10 ^ (t + 1)) (by omega) (by
        have := Nat.mod_lt a hP
        have h2 : 10 ^ (t + 1) ≤ 10 ^ (t + 1 + 1) := Nat.pow_le_pow_right (by norm_num) (by omega)
        omega)]
      rw [vincAbove_digits t a (t + 1) (by omega),
        Nat.mod_mod_of_dvd a (dvd_pow_self 10 (Nat.succ_ne_zero t))]
      simp only [vincAbove, Nat.mod_eq_of_lt (show a / 10 ^ (t + 1) < 10 by omega)]
      simp [List.flatten_append]
    · rw [if_neg h0]
      have h00 : a / 10 ^ (t + 1) = 0 := Nat.eq_zero_of_not_pos h0
      have ha2 : a < 10 ^ (t + 1) := (Nat.div_eq_zero_iff hP).mp h00
      rw [ih res a (by omega) ha2]
      simp [vincAbove, h00, digitGraphemes]

/-- Embedding theorem for the encoder: on a positive input below 10 ^ 20
it returns, without panicking, exactly the concatenated digit renderings
of tiers 19 down to 0. -/
theorem arabic2vinculum_eq (n : Nat) (h0 : 0 < n) (hn : n < 10 ^ 20) :
    arabic2vinculum n = some (.ok (vincGraphemes 19 n).flatten) := by
  unfold arabic2vinculum
  rw [if_neg (by omega)]
  rw [encodeLoop_eq 19 [] n (by norm_num) (by simpa using hn)]
  simp only [List.nil_append]
  by_cases h10 : n % 10 > 0
  · rw [if_pos h10]
    simp only [make_vinculum_number, charTuples_eq 0 (by norm_num), Option.map_some']
    rw [make_vinculum_ok _ _ (by omega) (by omega)]
    simp only [unwrapE]
    rw [vincGraphemes_split 19 n]
    simp [List.flatten_append]
  · rw [if_neg h10]
    have hz : n % 10 = 0 := by omega
    rw [vincGraphemes_split 19 n]
    simp [hz, digitGraphemes]

/-! ## Validity of the encoder output and the completed-valuation
round trip -/

theorem mem_digitGraphemes (g : List Char) (d : Nat)
    (tri : List Char × List Char × List Char) (h : g ∈ digitGraphemes d tri) :
    g = tri.1 ∨ g = tri.2.1 ∨ g = tri.2.2 := by
  unfold digitGraphemes at h
  split at h <;> simp at h <;> tauto

theorem vincGraphemes_valid : ∀ (t a : Nat), t ≤ 19 →
    ∀ g ∈ vincGraphemes t a, validGlyph g = true := by
  intro t
  induction t with
  | zero =>
    intro a _ g hg
    have h := mem_digitGraphemes g _ _ hg
    have hv := tierGlyph_valid 0 (by norm_num)
    rcases h with h | h | h <;> rw [h] <;> tauto
  | succ t ih =>
    intro a ht g hg
    simp only [vincGraphemes, List.mem_append] at hg
    rcases hg with hg | hg
    · have h := mem_digitGraphemes g _ _ hg
      have hv := tierGlyph_valid (t + 1) (by omega)
      rcases h with h | h | h <;> rw [h] <;> tauto
    · exact ih a (by omega) g hg

/-- Proof device: the worth of a string under the completed valuation.
Decodes any encoder output, including the glyphs the real decoder does
not recognise; used to establish injectivity of the encoder. -/
def stringWorth (s : List Char) : Nat :=
  scanSum none 0 ((graphemes s).map glyphWorth)

theorem stringWorth_encode (n : Nat) (hn : n < u64Size) :
    stringWorth (vincGraphemes 19 n).flatten = n := by
  unfold stringWorth
  rw [graphemes_flatten _ (vincGraphemes_valid 19 n (by norm_num)),
    map_glyphWorth_vinc 19 n (by norm_num)]
  have hn20 : n % 10 ^ 20 = n := Nat.mod_eq_of_lt (by
    simp only [u64Size] at hn
    calc n < 18446744073709551616 := hn
      _ < 10 ^ 20 := by norm_num)
  have h := scanSum_valuesOf 19 n none 0 (stateGE_none _) (by
    simp only [u64Size] at hn ⊢
    omega)
  rw [h, Nat.zero_add]
  simpa using hn20

/-- Combining the two: every u64 value encodes without panicking to an
ok string whose completed-valuation worth is the value itself. -/
theorem encode_ghost_roundtrip (n : Nat) (hn : n < u64Size) :
    ∃ s, arabic2vinculum n = some (.ok s) ∧ stringWorth s = n := by
  by_cases h0 : n = 0
  · subst h0
    exact ⟨[], rfl, rfl⟩
  · have hn20 : n < 10 ^ 20 := by
      simp only [u64Size] at hn
      calc n < 18446744073709551616 := hn
        _ < 10 ^ 20 := by norm_num
    exact ⟨_, arabic2vinculum_eq n (by omega) hn20, stringWorth_encode n hn⟩

/-! ## First unrecognised grapheme aborts the decode -/

theorem valueList_firstUnknown : ∀ (gs : List (List Char)) (g : List Char),
    gs.find? (fun x => (lookupGrapheme x).isNone) = some g →
    valueList gs = .error (("Unknown grapheme ").data ++ g) := by
  intro gs
  induction gs with
  | nil =>
    intro g h
    simp [List.find?] at h
  | cons x xs ih =>
    intro g h
    by_cases hx : (lookupGrapheme x).isNone
    · rw [List.find?_cons_of_pos xs hx] at h
      cases h
      simp [valueList, value, Option.isNone_iff_eq_none.mp hx]
    · rw [List.find?_cons_of_neg xs hx] at h
      cases hlx : lookupGrapheme x with
      | none => rw [hlx] at hx; simp at hx
      | some p =>
        simp [valueList, value, hlx, ih g h]

/-! ## The fold described by the specification

These definitions restate in Lean the decode fold as the specification
words it (section 4.3): values are base times 10 to the tier, the fold
adds new - prev - prev after a smaller previous value and new otherwise,
and the result is the accumulated sum, with no u64 wrapping and no early
stop.  They are compared with the implementation scan. -/

def specValue (g : List Char) : Option Nat :=
  (lookupGrapheme g).map (fun p => p.1 * 10 ^ p.2)

def specValues : List (List Char) → Option (List Nat)
  | [] => some []
  | g :: gs =>
    match specValue g, specValues gs with
    | some v, some vs => some (v :: vs)
    | _, _ => none

def specFold : Option Nat → Nat → List Nat → Nat
  | _, acc, [] => acc
  | st, acc, next :: rest =>
    let prev := st.getD next
    if prev < next then specFold (some next) (acc + (next - prev - prev)) rest
    else specFold (some next) (acc + next) rest

/-- No fold step underflows: whenever the previous value is smaller than
the next, twice the previous fits under the next. -/
def foldOK : Option Nat → List Nat → Prop
  | _, [] => True
  | st, next :: rest =>
    (st.getD next < next → st.getD next ≤ next - st.getD next) ∧ foldOK (some next) rest

theorem specFold_cons (st : Option Nat) (acc next : Nat) (rest : List Nat) :
    specFold st acc (next :: rest) =
      if st.getD next < next then specFold (some next) (acc + (next - st.getD next - st.getD next)) rest
      else specFold (some next) (acc + next) rest := rfl

theorem specFold_ge : ∀ (vs : List Nat) (st : Option Nat) (acc : Nat),
    acc ≤ specFold st acc vs := by
  intro vs
  induction vs with
  | nil => intro st acc; exact Nat.le_refl acc
  | cons next rest ih =>
    intro st acc
    rw [specFold_cons]
    split
    · exact Nat.le_trans (Nat.le_add_right _ _) (ih (some next) _)
    · exact Nat.le_trans (Nat.le_add_right _ _) (ih (some next) _)

/-- When no step underflows and the total stays below 2 ^ 64, the
implementation scan computes exactly the specification fold. -/
theorem scanSum_eq_specFold : ∀ (vs : List Nat) (st : Option Nat) (acc : Nat),
    foldOK st vs → specFold st acc vs < u64Size →
    scanSum st acc vs = specFold st acc vs := by
  intro vs
  induction vs with
  | nil => intro st acc _ _; rfl
  | cons next rest ih =>
    intro st acc hok hbound
    obtain ⟨hstep, hrest⟩ := hok
    rw [specFold_cons] at hbound ⊢
    by_cases hlt : st.getD next < next
    · rw [if_pos hlt] at hbound ⊢
      have hterm : acc + (next - st.getD next - st.getD next) ≤
          specFold (some next) (acc + (next - st.getD next - st.getD next)) rest :=
        specFold_ge rest _ _
      cases st with
      | none => simp at hlt
      | some p =>
        simp only [Option.getD_some] at hlt hstep hterm hbound ⊢
        rw [scanSum_cons_lt p acc next rest hlt (hstep hlt),
          Nat.mod_eq_of_lt (by omega)]
        exact ih (some next) _ hrest hbound
    · rw [if_neg hlt] at hbound ⊢
      have hterm : acc + next ≤ specFold (some next) (acc + next) rest :=
        specFold_ge rest _ _
      rw [scanSum_first st acc next rest (by
          intro p hp
          rw [hp] at hlt
          simpa using hlt),
        Nat.mod_eq_of_lt (by omega)]
      exact ih (some next) _ hrest hbound

/-- When every specification value fits in u64, the implementation
computes exactly the specification values. -/
theorem valueList_of_specValues : ∀ (gs : List (List Char)) (vs : List Nat),
    specValues gs = some vs → (∀ v ∈ vs, v < u64Size) →
    valueList gs = .ok vs := by
  intro gs
  induction gs with
  | nil =>
    intro vs h _
    simp only [specValues] at h
    cases h
    rfl
  | cons g gs2 ih =>
    intro vs h hb
    simp only [specValues] at h
    cases hv : specValue g with
    | none => rw [hv] at h; exact Option.noConfusion h
    | some v =>
      rw [hv] at h
      cases hvs : specValues gs2 with
      | none => rw [hvs] at h; simp at h
      | some vs2 =>
        rw [hvs] at h
        simp only at h
        cases h
        cases hl : lookupGrapheme g with
        | none => rw [specValue, hl] at hv; exact Option.noConfusion hv
        | some p =>
          rw [specValue, hl] at hv
          simp only [Option.map_some'] at hv
          cases hv
          simp only [valueList, value, hl]
          rw [Nat.mod_eq_of_lt (hb _ (List.mem_cons_self _ _))]
          rw [ih vs2 hvs (fun w hw => hb w (List.mem_cons_of_mem _ hw))]

/-! ## The doubling property of the table values -/

theorem lookup_base_tier (g : List Char) (b t : Nat)
    (h : lookupGrapheme g = some (b, t)) : (b = 1 ∨ b = 5) ∧ t ≤ 20 := by
  unfold lookupGrapheme at h
  cases hf : GRAPHEME_VALUES.find? (fun e => e.1 == g) with
  | none => rw [hf] at h; exact Option.noConfusion h
  | some e =>
    rw [hf] at h
    simp only [Option.map_some'] at h
    have hmem := List.mem_of_find?_eq_some hf
    have hall : ∀ x ∈ GRAPHEME_VALUES, (x.2.1 = 1 ∨ x.2.1 = 5) ∧ x.2.2 ≤ 20 := by decide
    have h2 := hall e hmem
    have he : e.2 = (b, t) := Option.some.inj h
    rw [he] at h2
    exact h2

/-- Among exact (unwrapped) table values, a strictly larger value is at
least twice the smaller: the subtractive computation cannot underflow on
such values. -/
theorem value_doubling (b1 t1 b2 t2 : Nat)
    (hb1 : b1 = 1 ∨ b1 = 5) (hb2 : b2 = 1 ∨ b2 = 5)
    (hlt : b1 * 10 ^ t1 < b2 * 10 ^ t2) :
    2 * (b1 * 10 ^ t1) ≤ b2 * 10 ^ t2 := by
  have hpow : ∀ m n : Nat, m ≤ n → (10:Nat) ^ m ≤ 10 ^ n :=
    fun m n h => Nat.pow_le_pow_right (by norm_num) h
  rcases hb1 with rfl | rfl <;> rcases hb2 with rfl | rfl
  · have ht : t1 < t2 := by
      by_contra hc
      have := hpow t2 t1 (by omega)
      omega
    have h1 := hpow (t1 + 1) t2 (by omega)
    have h2 : (10:Nat) ^ (t1 + 1) = 10 * 10 ^ t1 := by ring
    omega
  · by_cases hc : t1 ≤ t2
    · have := hpow t1 t2 hc
      omega
    · exfalso
      have h1 := hpow (t2 + 1) t1 (by omega)
      have h2 : (10:Nat) ^ (t2 + 1) = 10 * 10 ^ t2 := by ring
      omega
  · have ht : t1 < t2 := by
      by_contra hc
      have := hpow t2 t1 (by omega)
      omega
    have h1 := hpow (t1 + 1) t2 (by omega)
    have h2 : (10:Nat) ^ (t1 + 1) = 10 * 10 ^ t1 := by ring
    omega
  · have ht : t1 < t2 := by
      by_contra hc
      have := hpow t2 t1 (by omega)
      omega
    have h1 := hpow (t1 + 1) t2 (by omega)
    have h2 : (10:Nat) ^ (t1 + 1) = 10 * 10 ^ t1 := by ring
    omega

/-! ## The claims -/

/-- C1: the round trip vinculum2arabic (arabic2vinculum n) = n fails on
the code.  At n = 900000000 (digit 9 at tier 8) the encoder emits the
tier-8 ten-glyph M-double-overline, which is absent from GRAPHEME_VALUES,
so decoding its own output fails with an unknown-grapheme error instead
of returning 900000000 (the two redundant tables have drifted apart; the
same happens for digit 9 at tiers 11, 14 and 17). -/
theorem C1_roundtrip_failure :
    arabic2vinculum 900000000 = some (.ok ("C̿M̿").data) ∧
    vinculum2arabic ("C̿M̿").data = .error (("Unknown grapheme M̿").data) ∧
    lookupGrapheme (tierTriplet 8).2.2 = none :=
  ⟨rfl, rfl, rfl⟩

/-- C2 counterexample: on the input consisting of the tier-19 one-glyph
followed by the tier-19 five-glyph the second value wraps in u64 so the
subtractive step underflows (prev < next and next - prev < prev), yet
vinculum2arabic returns Ok with the truncated sum instead of failing with
an underflow error. -/
theorem C2_underflow_counterexample :
    valueList (graphemes ("X⃦̳̿L⃦̳̿").data) =
      .ok [10000000000000000000, 13106511852580896768] ∧
    (10000000000000000000 : Nat) < 13106511852580896768 ∧
    13106511852580896768 - 10000000000000000000 < (10000000000000000000 : Nat) ∧
    vinculum2arabic ("X⃦̳̿L⃦̳̿").data = .ok 10000000000000000000 :=
  ⟨rfl, by norm_num, by norm_num, rfl⟩

/-- C2 (amended): for every input whose graphemes are all recognised,
vinculum2arabic returns Ok of the scan result; when a step underflows the
scan stops at that step and the sum accumulated so far is the Ok value (a
truncated result) — no underflow error value exists in the code. -/
theorem C2_underflow_truncates :
    (∀ (s : List Char) (vs : List Nat), valueList (graphemes s) = .ok vs →
      vinculum2arabic s = .ok (scanSum none 0 vs)) ∧
    (∀ (prev acc next : Nat) (rest : List Nat), prev < next → next - prev < prev →
      scanSum (some prev) acc (next :: rest) = acc) := by
  constructor
  · intro s vs h
    unfold vinculum2arabic
    rw [h]
  · exact fun prev acc next rest h1 h2 => scanSum_cons_underflow prev acc next rest h1 h2

theorem C2_underflow_truncates_witness :
    vinculum2arabic ("X⃦̳̿L⃦̳̿").data =
      .ok (scanSum none 0 [10000000000000000000, 13106511852580896768]) ∧
    scanSum (some 3) 7 [5] = 7 :=
  ⟨C2_underflow_truncates.1 ("X⃦̳̿L⃦̳̿").data
      [10000000000000000000, 13106511852580896768] rfl,
    C2_underflow_truncates.2 3 7 5 [] (by norm_num) (by norm_num)⟩

/-- C3: an input containing an unrecognised grapheme makes
vinculum2arabic fail with the unknown-grapheme error naming the first
unrecognised grapheme; no numeric result is produced. -/
theorem C3_unknown_grapheme (s : List Char) (g : List Char)
    (h : (graphemes s).find? (fun x => (lookupGrapheme x).isNone) = some g) :
    vinculum2arabic s = .error (("Unknown grapheme ").data ++ g) := by
  unfold vinculum2arabic
  rw [valueList_firstUnknown (graphemes s) g h]

theorem C3_unknown_grapheme_witness :
    (graphemes ("Z").data).find? (fun x => (lookupGrapheme x).isNone) = some (("Z").data) ∧
    vinculum2arabic ("Z").data = .error (("Unknown grapheme ").data ++ ("Z").data) ∧
    ("Unknown grapheme ").data ++ ("Z").data = ("Unknown grapheme Z").data :=
  ⟨rfl, C3_unknown_grapheme ("Z").data ("Z").data rfl, rfl⟩

/-- C4: for every nonzero u64 input the encoder returns, without
panicking, exactly the concatenation over tiers 19 down to 0 of the
renderings of the decimal digits of the input, each nonzero digit
rendered from its tier triplet by the fixed 1-9 pattern. -/
theorem C4_encoder_renders_digits (n : Nat) (h0 : 0 < n) (hn : n < u64Size) :
    arabic2vinculum n = some (.ok (vincGraphemes 19 n).flatten) := by
  apply arabic2vinculum_eq n h0
  simp only [u64Size] at hn
  calc n < 18446744073709551616 := hn
    _ < 10 ^ 20 := by norm_num

theorem C4_encoder_renders_digits_witness :
    (0 < 3999 ∧ 3999 < u64Size) ∧
    arabic2vinculum 3999 = some (.ok (vincGraphemes 19 3999).flatten) :=
  ⟨⟨by norm_num, by simp only [u64Size]; norm_num⟩,
    C4_encoder_renders_digits 3999 (by norm_num) (by simp only [u64Size]; norm_num)⟩

/-- C5 counterexample: two copies of the tier-19 one-glyph decode to Ok,
but the u64 sum wraps, so the result is not the accumulated sum of the
grapheme values (2 * 10 ^ 19) described by the specification fold. -/
theorem C5_fold_counterexample :
    vinculum2arabic ("X⃦̳̿X⃦̳̿").data = .ok 1553255926290448384 ∧
    specValues (graphemes ("X⃦̳̿X⃦̳̿").data) =
      some [10000000000000000000, 10000000000000000000] ∧
    specFold none 0 [10000000000000000000, 10000000000000000000] =
      20000000000000000000 ∧
    (1553255926290448384 : Nat) ≠ 20000000000000000000 :=
  ⟨rfl, rfl, rfl, by norm_num⟩

/-- C5 (amended): the decoder equals the specification fold (left to
right, one value of lookback, term new - prev - prev after a smaller
previous value, else new, result the accumulated sum) whenever every
grapheme value fits in u64, no step underflows, and the total fits in
u64; otherwise wrapping or the early stop makes the results differ. -/
theorem C5_decode_is_fold (s : List Char) (vs : List Nat)
    (h1 : specValues (graphemes s) = some vs)
    (h2 : ∀ v ∈ vs, v < u64Size)
    (h3 : foldOK none vs)
    (h4 : specFold none 0 vs < u64Size) :
    vinculum2arabic s = .ok (specFold none 0 vs) := by
  unfold vinculum2arabic
  rw [valueList_of_specValues _ _ h1 h2]
  show Except.ok (scanSum none 0 vs) = Except.ok (specFold none 0 vs)
  rw [scanSum_eq_specFold vs none 0 h3 h4]

theorem C5_decode_is_fold_witness :
    specFold none 0 [1, 10] = 9 ∧
    vinculum2arabic ("IX").data = .ok (specFold none 0 [1, 10]) :=
  ⟨rfl, C5_decode_is_fold ("IX").data [1, 10] rfl
    (by intro v hv; simp only [u64Size]; simp at hv; omega)
    ⟨fun h => absurd h (lt_irrefl 1), ⟨fun _ => by norm_num, trivial⟩⟩
    (by simp only [u64Size]; decide)⟩

/-- C6: the literal conversions of the specification hold. -/
theorem C6_literals :
    arabic2vinculum 3999 = some (.ok ("I̅I̅I̅CI̅XCIX").data) ∧
    vinculum2arabic ("I̅I̅I̅CI̅XCIX").data = .ok 3999 ∧
    arabic2vinculum 4000 = some (.ok ("I̅V̅").data) ∧
    vinculum2arabic ("I̅V̅").data = .ok 4000 ∧
    arabic2vinculum 500001 = some (.ok ("D̅I").data) ∧
    vinculum2arabic ("D̅I").data = .ok 500001 ∧
    vinculum2arabic ("V̅I̅").data = .ok 6000 ∧
    vinculum2arabic ("IV").data = .ok 4 ∧
    vinculum2arabic ("IX").data = .ok 9 ∧
    vinculum2arabic ("XL").data = .ok 40 ∧
    vinculum2arabic ("CD").data = .ok 400 :=
  ⟨rfl, rfl, rfl, rfl, rfl, rfl, rfl, rfl, rfl, rfl, rfl⟩

/-- C7: encoding zero returns Ok of the empty string. -/
theorem C7_zero_empty : arabic2vinculum 0 = some (.ok []) := rfl

/-- C8: the encoder is injective: distinct u64 inputs have distinct
encodings.  Proof: under the completed valuation (the table extended with
the five missing M ten-glyphs at their intended worths) the worth of an
encoding is its input, so equal encodings force equal inputs. -/
theorem C8_encoder_injective (a b : Nat) (ha : a < u64Size) (hb : b < u64Size)
    (hne : a ≠ b) (sa sb : List Char)
    (hsa : arabic2vinculum a = some (.ok sa))
    (hsb : arabic2vinculum b = some (.ok sb)) :
    sa ≠ sb := by
  obtain ⟨s1, he1, hw1⟩ := encode_ghost_roundtrip a ha
  obtain ⟨s2, he2, hw2⟩ := encode_ghost_roundtrip b hb
  rw [he1] at hsa
  rw [he2] at hsb
  have e1 : s1 = sa := Except.ok.inj (Option.some.inj hsa)
  have e2 : s2 = sb := Except.ok.inj (Option.some.inj hsb)
  intro hss
  apply hne
  rw [← hw1, ← hw2, e1, e2, hss]

theorem C8_encoder_injective_witness : ("III").data ≠ ("IV").data :=
  C8_encoder_injective 3 4 (by simp only [u64Size]; norm_num)
    (by simp only [u64Size]; norm_num) (by norm_num) ("III").data ("IV").data rfl rfl

/-- C9: the encoder is total on u64: it never panics and always returns
Ok (the tier loop stays inside the 21-entry table and renders only digits
1-9, so both internal unwraps succeed). -/
theorem C9_encoder_total (n : Nat) (hn : n < u64Size) :
    ∃ s, arabic2vinculum n = some (.ok s) := by
  obtain ⟨s, hs, _⟩ := encode_ghost_roundtrip n hn
  exact ⟨s, hs⟩

theorem C9_encoder_total_witness :
    (18446744073709551615 : Nat) < u64Size ∧
    ∃ s, arabic2vinculum 18446744073709551615 = some (.ok s) :=
  ⟨by simp only [u64Size]; norm_num,
    C9_encoder_total 18446744073709551615 (by simp only [u64Size]; norm_num)⟩

/-- C10 counterexample: for the tier-18 five-glyph (worth
5 * 10 ^ 18) followed by the tier-20 one-glyph (whose u64 value wraps to
7766279631452241920) the previous value is smaller than the next but the
next is not at least twice the previous, the checked subtraction
underflows, and the decode returns the truncated sum — the underflow
branch is reachable. -/
theorem C10_underflow_reachable :
    value ("V⃦̳̿").data = .ok 5000000000000000000 ∧
    value ("C⃦̳̿").data = .ok 7766279631452241920 ∧
    (5000000000000000000 : Nat) < 7766279631452241920 ∧
    7766279631452241920 - 5000000000000000000 < (5000000000000000000 : Nat) ∧
    vinculum2arabic ("V⃦̳̿C⃦̳̿").data = .ok 5000000000000000000 :=
  ⟨rfl, rfl, by norm_num, by norm_num, rfl⟩

/-- C10 (amended): every fully recognised input decodes to Ok, and the
at-least-twice property does hold for the mathematical values
base * 10 ^ tier of any two table entries; but the code's u64 values wrap
at the top tiers, so the underflow branch is reachable and Ok holds only
because underflow stops the fold. -/
theorem C10_recognized_ok :
    (∀ (s : List Char) (vs : List Nat), valueList (graphemes s) = .ok vs →
      ∃ k, vinculum2arabic s = .ok k) ∧
    (∀ (g1 g2 : List Char) (b1 t1 b2 t2 : Nat),
      lookupGrapheme g1 = some (b1, t1) → lookupGrapheme g2 = some (b2, t2) →
      b1 * 10 ^ t1 < b2 * 10 ^ t2 → 2 * (b1 * 10 ^ t1) ≤ b2 * 10 ^ t2) := by
  constructor
  · intro s vs h
    refine ⟨scanSum none 0 vs, ?_⟩
    unfold vinculum2arabic
    rw [h]
  · intro g1 g2 b1 t1 b2 t2 h1 h2 hlt
    exact value_doubling b1 t1 b2 t2 (lookup_base_tier g1 b1 t1 h1).1
      (lookup_base_tier g2 b2 t2 h2).1 hlt

theorem C10_recognized_ok_witness :
    (∃ k, vinculum2arabic ("IX").data = .ok k) ∧
    2 * (1 * 10 ^ 0) ≤ 1 * 10 ^ 1 :=
  ⟨C10_recognized_ok.1 ("IX").data [1, 10] rfl,
    C10_recognized_ok.2 ("I").data ("X").data 1 0 1 1 rfl rfl (by norm_num)⟩
